import Mathlib

/-!
Shallow embedding of the scraping/aggregation pipeline in `src/3/main.py`
(GithubReposScrapper, its inner RateLimiter, and the clickhouse batch writer),
together with proofs of the specified properties.

Modelling conventions:
* Python dict field access is modelled with `Option` fields on records
  (`none` = key absent / value `None`).
* Python truthiness of a string is `s ≠ ""`; of an optional value, `isSome`
  combined with the inner truthiness where the source relies on it.
* Raised exceptions are modelled with `Except PyError`.
* Wall-clock instants (`time.monotonic()`) are modelled as rationals.
-/

/-- Exceptions that the modelled code paths can raise. -/
inductive PyError where
  | typeError
  | fetchError
  | zeroDivisionError
deriving DecidableEq, Repr

/-- Dataclass `RepositoryAuthorCommitsNum` (src/3/main.py:15-18). -/
structure RepositoryAuthorCommitsNum where
  author : String
  commits_num : Nat
deriving DecidableEq, Repr

/-- Dataclass `Repository` (src/3/main.py:21-30). -/
structure Repository where
  name : String
  owner : String
  position : Nat
  stars : Int
  watchers : Int
  forks : Int
  language : String
  authors_commits_num_today : List RepositoryAuthorCommitsNum
deriving DecidableEq, Repr

/-- One item of the `search/repositories` response, with the fields the code
reads (src/3/main.py:103-128). `owner.login` and `name` are accessed with
mandatory `[]` indexing on a well-formed search item; the starred counts and
`language` are read with `.get` and so are optional. -/
structure RepoData where
  name : String
  owner_login : String
  stargazers_count : Option Int
  watchers_count : Option Int
  forks_count : Option Int
  language : Option String
deriving DecidableEq, Repr

/-- Models `repo_data.get("language") or "Unknown"` (src/3/main.py:128):
Python `or` falls through to `"Unknown"` when the value is falsy, i.e. the key
is absent, the value is `None`, or the value is the empty string. -/
def language_or_unknown : Option String → String
  | some s => if s = "" then "Unknown" else s
  | none => "Unknown"

/-- One commit record from the list-commits payload, with the two paths the
aggregation loop reads (src/3/main.py:108-116).
`author` models `commit["author"]`: `none` when the key is absent or its value
is falsy (`null` / empty object), `some login?` when it is a truthy object
whose `"login"` value is `login?` (`none` = no such key / `null`).
`commit_author_name` models the nested path `commit["commit"]["author"]["name"]`:
`none` when any key on the path is missing (a `KeyError` in the source). -/
structure CommitRecord where
  author : Option (Option String)
  commit_author_name : Option String
deriving DecidableEq, Repr

/-- Author identity extracted by the loop body (src/3/main.py:110-113):
`if commit.get("author") and commit["author"].get("login")` uses the login
(a present, non-empty string); otherwise the record falls through to
`commit["commit"]["author"]["name"]`, whose absence (`none`) is the
`KeyError` caught by the `except` and so yields no identity at all. -/
def extract_author (c : CommitRecord) : Option String :=
  match c.author with
  | some (some s) => if s = "" then c.commit_author_name else some s
  | some none => c.commit_author_name
  | none => c.commit_author_name

/-- Models `author_counts[author] = author_counts.get(author, 0) + 1`
(src/3/main.py:114) on an insertion-ordered association list, the shallow
embedding of a Python dict. -/
def incr_count : List (String × Nat) → String → List (String × Nat)
  | [], a => [(a, 1)]
  | (b, n) :: rest, a =>
      if b = a then (b, n + 1) :: rest else (b, n) :: incr_count rest a

/-- One iteration of the aggregation loop (src/3/main.py:108-116): extract the
author identity and bump its count, or skip the record (`except: continue`). -/
def count_author (acc : List (String × Nat)) (c : CommitRecord) : List (String × Nat) :=
  match extract_author c with
  | some a => incr_count acc a
  | none => acc

/-- The whole aggregation loop over a commit list (src/3/main.py:107-116),
producing the dict `author_counts` as an insertion-ordered association list. -/
def aggregate (commits : List CommitRecord) : List (String × Nat) :=
  commits.foldl count_author []

/-- Modelled from the spec: `_get_repository_commits` (src/3/main.py:66-68) is
declared against the list-commits endpoint but its body is the bare stub `...`,
so the implementation of the per-repository commits fetch is missing from the
source. Following the spec (§6, §4.3), one fetch either yields a list of commit
records or fails; `ret_none` is what the stub actually does — the coroutine
returns `None`. -/
inductive FetchResult where
  | ok (commits : List CommitRecord)
  | ret_none
  | raised
deriving DecidableEq, Repr

/-- The body of the stub `_get_repository_commits` (src/3/main.py:66-68):
it performs no request and returns `None`. -/
def stub_fetch : RepoData → FetchResult := fun _ => FetchResult.ret_none

/-- One fan-out unit `process_repo` (src/3/main.py:102-130), parameterised by
the outcome of its commits fetch. Iterating the stub's `None` result raises
`TypeError` (the `for commit in commits` line is outside the `try`), and a
raising fetch propagates; otherwise the unit aggregates the commits and builds
the `Repository` with `position = index + 1`. -/
def process_repo (index : Nat) (repo_data : RepoData) (fetched : FetchResult) :
    Except PyError Repository :=
  match fetched with
  | FetchResult.ok commits =>
      Except.ok
        { name := repo_data.name
          owner := repo_data.owner_login
          position := index + 1
          stars := repo_data.stargazers_count.getD 0
          watchers := repo_data.watchers_count.getD 0
          forks := repo_data.forks_count.getD 0
          language := language_or_unknown repo_data.language
          authors_commits_num_today :=
            (aggregate commits).map (fun p => ⟨p.1, p.2⟩) }
  | FetchResult.ret_none => Except.error PyError.typeError
  | FetchResult.raised => Except.error PyError.fetchError

/-- Models Python `enumerate` starting at `i` (src/3/main.py:132). -/
def enumerate_from {α : Type} (i : Nat) : List α → List (Nat × α)
  | [] => []
  | x :: xs => (i, x) :: enumerate_from (i + 1) xs

/-- Discriminates the per-unit outcome, true when the unit returned normally. -/
def except_ok : Except PyError Repository → Bool
  | Except.ok _ => true
  | Except.error _ => false

/-- Models `asyncio.gather(*tasks, return_exceptions=False)` wrapped in
`try/except` (src/3/main.py:133-136): if every unit returns, the results are
collected in task order; if any unit raises, `gather` raises and the handler
sets `results = []`. -/
def gather_results (outcomes : List (Except PyError Repository)) : List Repository :=
  if outcomes.all except_ok then outcomes.filterMap Except.toOption else []

/-- Body of `get_repositories` after the top-repositories fetch
(src/3/main.py:132-137), parameterised by the per-repository commits-fetch
behaviour (see `FetchResult`): one `process_repo` unit per enumerated item,
gathered fail-closed. -/
def get_repositories (fetch : RepoData → FetchResult)
    (top_repos_data : List RepoData) : List Repository :=
  gather_results
    ((enumerate_from 0 top_repos_data).map (fun p => process_repo p.1 p.2 (fetch p.2)))

/-- The run exactly as the source has it, with the stub commits fetch. -/
def get_repositories_actual (top_repos_data : List RepoData) : List Repository :=
  get_repositories stub_fetch top_repos_data

/-- Outcome of one attempt at an upstream HTTP call, as distinguished by the
`try` body of `_make_request` (src/3/main.py:46-53): a 2xx response with a
decodable JSON body of type `α`, or one of the failure modes the `except`
absorbs (transport error, `raise_for_status` on a non-2xx code, JSON decode
failure). -/
inductive HttpOutcome (α : Type) where
  | success (body : α)
  | transport_error
  | bad_status (code : Nat)
  | malformed_body
deriving DecidableEq, Repr

/-- True exactly on the `success` outcome. -/
def HttpOutcome.isSuccess {α : Type} : HttpOutcome α → Bool
  | HttpOutcome.success _ => true
  | _ => false

/-- Body of the `search/repositories` response as the caller reads it:
an object whose `"items"` key is optional (`data.get("items", [])`,
src/3/main.py:64). The failure body `{}` is `⟨none⟩`. -/
structure SearchBody where
  items : Option (List RepoData)
deriving DecidableEq, Repr

/-- Models `_make_request` (src/3/main.py:43-53) at the search endpoint: the
whole request is inside `try`, every failure mode is absorbed by the
`except Exception` handler which returns the empty dict `{}`; only a 2xx
response with a decodable body is returned as-is. The function is total:
no error value escapes. -/
def make_request (o : HttpOutcome SearchBody) : SearchBody :=
  match o with
  | HttpOutcome.success b => b
  | _ => { items := none }

/-- Models `_get_top_repositories` (src/3/main.py:55-64):
`data.get("items", [])` on the body returned by `make_request`. -/
def get_top_repositories (o : HttpOutcome SearchBody) : List RepoData :=
  (make_request o).items.getD []

/-- Observable actions on the upstream-API path: a `RateLimiter.wait()` call
and an HTTP request issued by `_make_request`. -/
inductive ApiEvent where
  | wait
  | request (endpoint : String)
deriving DecidableEq, Repr

/-- Events emitted by one `_make_request` call (src/3/main.py:43-53): it
issues the HTTP request directly; nothing in its body touches the limiter. -/
def make_request_events (endpoint : String) : List ApiEvent :=
  [ApiEvent.request endpoint]

/-- Events of `_get_top_repositories` (src/3/main.py:55-64): a single
`_make_request` on the search endpoint. -/
def get_top_repositories_events : List ApiEvent :=
  make_request_events "search/repositories"

/-- Events of `_get_repository_commits` (src/3/main.py:66-68): the stub body
`...` performs no call at all. -/
def get_repository_commits_events : List ApiEvent := []

/-- Events of one whole `get_repositories` run (src/3/main.py:70-137): the
`RateLimiter` is constructed at line 96 (no event) and stored unused; the
top-repositories fetch runs, then each unit runs `_get_repository_commits`.
No call site anywhere invokes `wait()`. -/
def get_repositories_events (top_repos_data : List RepoData) : List ApiEvent :=
  get_top_repositories_events
    ++ (top_repos_data.map (fun _ => get_repository_commits_events)).flatten

/-- State of the inner `RateLimiter` (src/3/main.py:80-85): the configured
rate, `_min_interval`, and `_last_call`. -/
structure RateLimiter where
  rate : ℚ
  min_interval : ℚ
  last_call : ℚ
deriving DecidableEq, Repr

/-- Models `RateLimiter.__init__` (src/3/main.py:81-85): `_min_interval` is
`1.0 / rate`, computed unconditionally; Python float division raises
`ZeroDivisionError` when `rate` is `0.0`, modelled as the error branch.
There is no guard or fallback for non-positive rates. -/
def RateLimiter.init (rate : ℚ) : Except PyError RateLimiter :=
  if rate = 0 then Except.error PyError.zeroDivisionError
  else Except.ok { rate := rate, min_interval := 1 / rate, last_call := 0 }

/-- Models the parsing of `GITHUB_RPS` (src/3/main.py:75-78): the default 1.0
applies only when the variable is unset (`none`) or `float()` raises
(`some none`); any parsed value, including 0 and negatives, is used as-is. -/
def configured_rps (env : Option (Option ℚ)) : ℚ :=
  match env with
  | none => 1
  | some none => 1
  | some (some q) => q

/-- One lock-serialised execution of `RateLimiter.wait` (src/3/main.py:87-94):
`now` is the `time.monotonic()` reading taken on entry under the lock and
`fin` is the reading taken after the optional sleep and recorded as the new
`_last_call`. -/
structure WaitExec where
  now : ℚ
  fin : ℚ
deriving DecidableEq, Repr

/-- The sleep amount computed by `wait` (src/3/main.py:90-91):
`wait_time = self._min_interval - (now - self._last_call)`. -/
def wait_time (min_interval last_call now : ℚ) : ℚ :=
  min_interval - (now - last_call)

/-- Validity of one `wait` execution against the monotonic clock: the entry
reading is no earlier than the previous recorded `_last_call` (the lock
serialises executions and `time.monotonic` is non-decreasing), and the final
reading is no earlier than entry plus the performed sleep — `asyncio.sleep(d)`
suspends for at least `d` when `d > 0` and is skipped otherwise
(src/3/main.py:92-94). -/
def valid_wait_exec (min_interval last_call : ℚ) (e : WaitExec) : Bool :=
  decide (last_call ≤ e.now) &&
    (if 0 < wait_time min_interval last_call e.now
      then decide (e.now + wait_time min_interval last_call e.now ≤ e.fin)
      else decide (e.now ≤ e.fin))

/-- Validity of a serialised sequence of `wait` executions, threading the
recorded `_last_call` through (src/3/main.py:88-94). -/
def valid_wait_trace (min_interval last_call : ℚ) : List WaitExec → Bool
  | [] => true
  | e :: es => valid_wait_exec min_interval last_call e && valid_wait_trace min_interval e.fin es

/-- Generator `chunked` (src/3/main.py:143-145): the slices
`data[i : i + chunk_size]` for `i in range(0, len(data), chunk_size)`.
A Python slice `data[i : i + k]` is `(data.drop i).take k`, and
`range(0, n, k)` for `k > 0` is `[0, k, 2k, ...]` with `⌈n / k⌉` elements
(for `k = 0`, `range` raises `ValueError`; the source only ever calls this
with the positive `batch_size`). -/
def chunked {α : Type} (data : List α) (chunk_size : Nat) : List (List α) :=
  if chunk_size = 0 then []
  else
    (List.range ((data.length + chunk_size - 1) / chunk_size)).map
      (fun j => (data.drop (j * chunk_size)).take chunk_size)

/-- Rows for `test.repositories` (src/3/main.py:153-154); `now` stands for the
`datetime.datetime.now()` timestamp. -/
def repos_rows (now : Nat) (repositories : List Repository) :
    List (String × String × Int × Int × Int × String × Nat) :=
  repositories.map (fun repo =>
    (repo.name, repo.owner, repo.stars, repo.watchers, repo.forks, repo.language, now))

/-- Rows for `test.repositories_positions` (src/3/main.py:158); `today` stands
for `now.date()`. -/
def positions_rows (today : Nat) (repositories : List Repository) :
    List (Nat × String × Nat) :=
  repositories.map (fun repo => (today, repo.name, repo.position))

/-- Rows for `test.repositories_authors_commits` (src/3/main.py:162-165): the
nested loop appends one row per author entry of each repository, in order. -/
def commits_rows (today : Nat) (repositories : List Repository) :
    List (Nat × String × String × Nat) :=
  (repositories.map (fun repo =>
    repo.authors_commits_num_today.map (fun ac =>
      (today, repo.name, ac.author, ac.commits_num)))).flatten

/-- One `client.execute(query, batch)` call, tagged by target table
(src/3/main.py:155-168). -/
inductive InsertOp where
  | repos (rows : List (String × String × Int × Int × Int × String × Nat))
  | positions (rows : List (Nat × String × Nat))
  | commits (rows : List (Nat × String × String × Nat))
deriving Repr

/-- Number of rows carried by one insert operation. -/
def insert_op_size : InsertOp → Nat
  | InsertOp.repos rows => rows.length
  | InsertOp.positions rows => rows.length
  | InsertOp.commits rows => rows.length

/-- True exactly on inserts into `test.repositories_authors_commits`. -/
def is_commits_op : InsertOp → Bool
  | InsertOp.commits _ => true
  | _ => false

/-- Models `save_data_to_clickhouse` (src/3/main.py:148-168) as the sequence
of insert operations it issues: the metadata chunks, then the rank chunks,
then the author-commit chunks, one `execute` per chunk. -/
def save_data_to_clickhouse (now today : Nat) (repositories : List Repository)
    (batch_size : Nat) : List InsertOp :=
  (chunked (repos_rows now repositories) batch_size).map InsertOp.repos
    ++ (chunked (positions_rows today repositories) batch_size).map InsertOp.positions
    ++ (chunked (commits_rows today repositories) batch_size).map InsertOp.commits

/-- Concrete search item used in concrete evaluations. -/
def sample_repo_data : RepoData :=
  { name := "linux", owner_login := "torvalds", stargazers_count := some 170000,
    watchers_count := some 170000, forks_count := some 50000, language := some "C" }

/-- Second concrete search item, with all optional fields absent. -/
def sample_repo_data2 : RepoData :=
  { name := "cpython", owner_login := "python", stargazers_count := none,
    watchers_count := none, forks_count := none, language := none }

/-- Concrete commit page: two commits by login `alice`, one by free-text name
`Jane`, and one unparsable record (no login, no name). -/
def sample_commits : List CommitRecord :=
  [ { author := some (some "alice"), commit_author_name := some "Alice A" }
  , { author := none, commit_author_name := some "Jane" }
  , { author := some none, commit_author_name := none }
  , { author := some (some "alice"), commit_author_name := none } ]

/-- The Repository that `process_repo 0 sample_repo_data` assembles from
`sample_commits`. -/
def sample_repo : Repository :=
  { name := "linux", owner := "torvalds", position := 1, stars := 170000,
    watchers := 170000, forks := 50000, language := "C",
    authors_commits_num_today := [⟨"alice", 2⟩, ⟨"Jane", 1⟩] }

/-- Concrete repository with no author entries. -/
def empty_authors_repo : Repository :=
  { name := "r", owner := "o", position := 1, stars := 0, watchers := 0,
    forks := 0, language := "Unknown", authors_commits_num_today := [] }

/-- Concrete repository with exactly one author entry. -/
def one_author_repo : Repository :=
  { empty_authors_repo with authors_commits_num_today := [⟨"a", 1⟩] }

/-- Concrete scrape result of 250 repositories with one author row each. -/
def repos_250 : List Repository := List.replicate 250 one_author_repo

/-! Helper lemmas about the per-author counting map. -/

theorem incr_count_sum (acc : List (String × Nat)) (a : String) :
    ((incr_count acc a).map Prod.snd).sum = ((acc.map Prod.snd).sum) + 1 := by
  induction acc with
  | nil => simp [incr_count]
  | cons p rest ih =>
    obtain ⟨b, n⟩ := p
    by_cases hb : b = a
    · simp [incr_count, hb]
      omega
    · simp [incr_count, hb, ih]
      omega

theorem incr_count_keys (acc : List (String × Nat)) (a : String) :
    (incr_count acc a).map Prod.fst =
      if a ∈ acc.map Prod.fst then acc.map Prod.fst else acc.map Prod.fst ++ [a] := by
  induction acc with
  | nil => simp [incr_count]
  | cons p rest ih =>
    obtain ⟨b, n⟩ := p
    by_cases hb : b = a
    · simp [incr_count, hb]
    · have hba : ¬ (a = b) := fun h => hb h.symm
      by_cases hm : a ∈ rest.map Prod.fst
      · simp [incr_count, hb, ih, hm, hba]
      · simp [incr_count, hb, ih, hm, hba]

theorem incr_count_nodup (acc : List (String × Nat)) (a : String)
    (h : (acc.map Prod.fst).Nodup) : ((incr_count acc a).map Prod.fst).Nodup := by
  rw [incr_count_keys]
  by_cases hm : a ∈ acc.map Prod.fst
  · simp [hm, h]
  · simp [hm, List.nodup_append, h]

theorem incr_count_pos (acc : List (String × Nat)) (a : String)
    (h : ∀ p ∈ acc, 1 ≤ p.2) : ∀ p ∈ incr_count acc a, 1 ≤ p.2 := by
  induction acc with
  | nil =>
    intro p hp
    simp [incr_count] at hp
    simp [hp]
  | cons q rest ih =>
    obtain ⟨b, n⟩ := q
    intro p hp
    by_cases hb : b = a
    · simp [incr_count, hb] at hp
      rcases hp with hp | hp
      · simp [hp]
      · exact h p (List.mem_cons_of_mem _ hp)
    · simp [incr_count, hb] at hp
      rcases hp with hp | hp
      · exact h p (by simp [hp])
      · exact ih (fun q hq => h q (List.mem_cons_of_mem _ hq)) p hp

theorem aggregate_fold_inv (cs : List CommitRecord) :
    ∀ acc : List (String × Nat),
      (((cs.foldl count_author acc).map Prod.snd).sum
          = (acc.map Prod.snd).sum + cs.countP (fun c => (extract_author c).isSome))
      ∧ ((acc.map Prod.fst).Nodup → ((cs.foldl count_author acc).map Prod.fst).Nodup)
      ∧ ((∀ p ∈ acc, 1 ≤ p.2) → ∀ p ∈ cs.foldl count_author acc, 1 ≤ p.2) := by
  induction cs with
  | nil => intro acc; simp
  | cons c tl ih =>
    intro acc
    rcases hea : extract_author c with _ | a
    · have hstep : count_author acc c = acc := by simp [count_author, hea]
      simp only [List.foldl_cons, hstep, List.countP_cons, hea]
      refine ⟨?_, (ih acc).2.1, (ih acc).2.2⟩
      simp [(ih acc).1]
    · have hstep : count_author acc c = incr_count acc a := by simp [count_author, hea]
      simp only [List.foldl_cons, hstep, List.countP_cons, hea]
      refine ⟨?_, ?_, ?_⟩
      · rw [(ih (incr_count acc a)).1, incr_count_sum]
        simp
        omega
      · intro hnd
        exact (ih (incr_count acc a)).2.1 (incr_count_nodup acc a hnd)
      · intro hpos
        exact (ih (incr_count acc a)).2.2 (incr_count_pos acc a hpos)

/-! Helper lemma for the fan-out: when every unit's commits fetch succeeds,
the gathered outcomes are all ok and the positions obtained from
`enumerate_from k` are `k+1, k+2, ...` in response order. -/

theorem enum_map_all_ok (fetch : RepoData → FetchResult) (l : List RepoData)
    (h : ∀ rd ∈ l, ∃ cs, fetch rd = FetchResult.ok cs) :
    ∀ k : Nat,
      (((enumerate_from k l).map (fun p => process_repo p.1 p.2 (fetch p.2))).all except_ok = true)
      ∧ ((((enumerate_from k l).map (fun p => process_repo p.1 p.2 (fetch p.2))).filterMap
            Except.toOption).map Repository.position = List.range' (k + 1) l.length) := by
  induction l with
  | nil => intro k; simp [enumerate_from]
  | cons x xs ih =>
    intro k
    obtain ⟨cs, hcs⟩ := h x (List.mem_cons_self x xs)
    have hrest : ∀ rd ∈ xs, ∃ cs, fetch rd = FetchResult.ok cs :=
      fun rd hrd => h rd (List.mem_cons_of_mem _ hrd)
    have ihx := ih hrest (k + 1)
    constructor
    · simp only [enumerate_from, List.map_cons, List.all_cons, hcs, process_repo, except_ok,
        Bool.true_and]
      exact ihx.1
    · simp only [enumerate_from, List.map_cons, hcs, List.length_cons, List.range'_succ]
      rw [show process_repo k x (FetchResult.ok cs) = Except.ok
            { name := x.name, owner := x.owner_login, position := k + 1,
              stars := x.stargazers_count.getD 0, watchers := x.watchers_count.getD 0,
              forks := x.forks_count.getD 0, language := language_or_unknown x.language,
              authors_commits_num_today := (aggregate cs).map (fun p => ⟨p.1, p.2⟩) } from rfl]
      simp only [List.filterMap_cons, Except.toOption, List.map_cons]
      exact congrArg (List.cons (k + 1)) ihx.2

/-- Claim C1: if at least one `process_repo` unit raises (an error not already
absorbed by the empty-result convention of the HTTP layer), the gathered run
returns the empty list rather than a partially populated one: the `gather` is
wrapped in `try/except` with `results = []` (src/3/main.py:133-137). -/
theorem get_repositories_fail_closed (fetch : RepoData → FetchResult)
    (top_repos_data : List RepoData)
    (h : ∃ p ∈ enumerate_from 0 top_repos_data,
        except_ok (process_repo p.1 p.2 (fetch p.2)) = false) :
    get_repositories fetch top_repos_data = [] := by
  obtain ⟨p, hp, hfalse⟩ := h
  have hall : ((enumerate_from 0 top_repos_data).map
      (fun q => process_repo q.1 q.2 (fetch q.2))).all except_ok = false := by
    rw [List.all_eq_false]
    exact ⟨_, List.mem_map_of_mem _ hp, by simp [hfalse]⟩
  simp [get_repositories, gather_results, hall]

/-- Witness for C1: one repository whose commits fetch raises makes the whole
run return the empty list. -/
theorem get_repositories_fail_closed_witness :
    get_repositories (fun _ => FetchResult.raised) [sample_repo_data] = [] :=
  get_repositories_fail_closed (fun _ => FetchResult.raised) [sample_repo_data]
    ⟨(0, sample_repo_data), by simp [enumerate_from], rfl⟩

/-- Claim C3: because `_get_repository_commits` is a stub returning `None`,
every unit raises `TypeError` when iterating its commits, so the run as the
source has it returns the empty list for every top-repositories response:
the public entry point can never produce a non-empty result. -/
theorem get_repositories_actual_empty (top_repos_data : List RepoData) :
    get_repositories_actual top_repos_data = [] := by
  cases top_repos_data with
  | nil => rfl
  | cons x xs =>
    simp [get_repositories_actual, get_repositories, gather_results, enumerate_from,
      stub_fetch, process_repo, except_ok]

/-- Claim C5: for every Repository assembled by a unit and every input commit
list, the commit counts sum to the number of records with an extractable
author, author entries are pairwise distinct, and every count is at least 1. -/
theorem process_repo_commit_count_invariant (index : Nat) (repo_data : RepoData)
    (commits : List CommitRecord) (repo : Repository)
    (h : process_repo index repo_data (FetchResult.ok commits) = Except.ok repo) :
    ((repo.authors_commits_num_today.map RepositoryAuthorCommitsNum.commits_num).sum
        = commits.countP (fun c => (extract_author c).isSome))
    ∧ (repo.authors_commits_num_today.map RepositoryAuthorCommitsNum.author).Nodup
    ∧ (∀ e ∈ repo.authors_commits_num_today, 1 ≤ e.commits_num) := by
  simp only [process_repo, Except.ok.injEq] at h
  subst h
  have inv := aggregate_fold_inv commits []
  refine ⟨?_, ?_, ?_⟩
  · show (((aggregate commits).map (fun p => (⟨p.1, p.2⟩ : RepositoryAuthorCommitsNum))).map
        RepositoryAuthorCommitsNum.commits_num).sum = _
    rw [List.map_map]
    have hc : (RepositoryAuthorCommitsNum.commits_num ∘
        fun p : String × Nat => ⟨p.1, p.2⟩) = Prod.snd := rfl
    rw [hc]
    simpa [aggregate] using inv.1
  · show (((aggregate commits).map (fun p => (⟨p.1, p.2⟩ : RepositoryAuthorCommitsNum))).map
        RepositoryAuthorCommitsNum.author).Nodup
    rw [List.map_map]
    have ha : (RepositoryAuthorCommitsNum.author ∘
        fun p : String × Nat => ⟨p.1, p.2⟩) = Prod.fst := rfl
    rw [ha]
    exact inv.2.1 (by simp)
  · intro e he
    have he' : e ∈ (aggregate commits).map
        (fun p : String × Nat => (⟨p.1, p.2⟩ : RepositoryAuthorCommitsNum)) := he
    obtain ⟨p, hp, rfl⟩ := List.mem_map.mp he'
    exact inv.2.2 (by simp) p hp

/-- Witness for C5 on the concrete commit page `sample_commits`. -/
theorem process_repo_commit_count_invariant_witness :
    ((sample_repo.authors_commits_num_today.map RepositoryAuthorCommitsNum.commits_num).sum
        = sample_commits.countP (fun c => (extract_author c).isSome))
    ∧ (sample_repo.authors_commits_num_today.map RepositoryAuthorCommitsNum.author).Nodup
    ∧ (∀ e ∈ sample_repo.authors_commits_num_today, 1 ≤ e.commits_num) :=
  process_repo_commit_count_invariant 0 sample_repo_data sample_commits sample_repo rfl

/-- Claim C6: when every unit's commits fetch yields a list, the run returns
one Repository per response item, with position fields exactly 1..n assigned
in response order (`position = index + 1`, src/3/main.py:124,132). -/
theorem get_repositories_positions (fetch : RepoData → FetchResult)
    (top_repos_data : List RepoData)
    (h : ∀ rd ∈ top_repos_data, ∃ cs, fetch rd = FetchResult.ok cs) :
    (get_repositories fetch top_repos_data).length = top_repos_data.length
    ∧ (get_repositories fetch top_repos_data).map Repository.position
        = List.range' 1 top_repos_data.length := by
  have hall := enum_map_all_ok fetch top_repos_data h 0
  have hres : get_repositories fetch top_repos_data
      = ((enumerate_from 0 top_repos_data).map
          (fun p => process_repo p.1 p.2 (fetch p.2))).filterMap Except.toOption := by
    simp [get_repositories, gather_results, hall.1]
  constructor
  · rw [hres]
    have hlen := congrArg List.length hall.2
    simpa using hlen
  · rw [hres]
    simpa using hall.2

/-- Witness for C6: a two-item response with succeeding fetches yields
positions `[1, 2]`. -/
theorem get_repositories_positions_witness :
    (get_repositories (fun _ => FetchResult.ok []) [sample_repo_data, sample_repo_data2]).length = 2
    ∧ (get_repositories (fun _ => FetchResult.ok [])
        [sample_repo_data, sample_repo_data2]).map Repository.position = List.range' 1 2 := by
  have h := get_repositories_positions (fun _ => FetchResult.ok [])
    [sample_repo_data, sample_repo_data2] (fun rd _ => ⟨[], rfl⟩)
  simpa using h

/-- Claim C8: `_make_request` never raises — every transport error, non-2xx
status or malformed body is absorbed into the empty dict (src/3/main.py:52-53),
so `get("items", [])` yields `[]` and the run built on a failed
top-repositories call is the empty result set, not an error. -/
theorem make_request_absorbs_failures (o : HttpOutcome SearchBody)
    (fetch : RepoData → FetchResult) (h : o.isSuccess = false) :
    make_request o = { items := none }
    ∧ get_top_repositories o = []
    ∧ get_repositories fetch (get_top_repositories o) = [] := by
  cases o with
  | success b => simp [HttpOutcome.isSuccess] at h
  | transport_error => exact ⟨rfl, rfl, rfl⟩
  | bad_status code => exact ⟨rfl, rfl, rfl⟩
  | malformed_body => exact ⟨rfl, rfl, rfl⟩

/-- Witness for C8 at a concrete transport error. -/
theorem make_request_absorbs_failures_witness :
    make_request (HttpOutcome.transport_error : HttpOutcome SearchBody) = { items := none }
    ∧ get_top_repositories HttpOutcome.transport_error = []
    ∧ get_repositories stub_fetch (get_top_repositories HttpOutcome.transport_error) = [] :=
  make_request_absorbs_failures HttpOutcome.transport_error stub_fetch rfl

/-- Claim C9: the aggregation attributes a record to the structured login when
it is present and non-empty, otherwise to the free-text `commit.author.name`;
a record with neither is skipped without aborting the remaining records, and a
record with no login but name `"Jane"` contributes one commit to `"Jane"`. -/
theorem extract_author_preference (c : CommitRecord) (cs : List CommitRecord) :
    (∀ s, c.author = some (some s) → s ≠ "" → extract_author c = some s)
    ∧ ((c.author = none ∨ c.author = some none ∨ c.author = some (some "")) →
        extract_author c = c.commit_author_name)
    ∧ (extract_author c = none → aggregate (c :: cs) = aggregate cs)
    ∧ aggregate [{ author := none, commit_author_name := some "Jane" }] = [("Jane", 1)] := by
  refine ⟨?_, ?_, ?_, rfl⟩
  · intro s hs hne
    simp [extract_author, hs, hne]
  · intro hcase
    rcases hcase with hc | hc | hc <;> simp [extract_author, hc]
  · intro hnone
    show (c :: cs).foldl count_author [] = cs.foldl count_author []
    simp [count_author, hnone]

/-- Witness for C9: login preferred, name fallback, and a silent skip. -/
theorem extract_author_preference_witness :
    extract_author { author := some (some "bob"), commit_author_name := some "x" } = some "bob"
    ∧ extract_author { author := some none, commit_author_name := some "Jane" } = some "Jane"
    ∧ aggregate [{ author := some none, commit_author_name := none },
          { author := none, commit_author_name := some "Jane" }]
        = aggregate [{ author := none, commit_author_name := some "Jane" }] := by
  refine ⟨?_, ?_, ?_⟩
  · exact (extract_author_preference
      { author := some (some "bob"), commit_author_name := some "x" } []).1 "bob" rfl (by decide)
  · exact (extract_author_preference
      { author := some none, commit_author_name := some "Jane" } []).2.1 (Or.inr (Or.inl rfl))
  · exact (extract_author_preference { author := some none, commit_author_name := none }
      [{ author := none, commit_author_name := some "Jane" }]).2.2.1 rfl

/-- Claim C2 (divergence): along the whole `get_repositories` run, the event
trace contains the `search/repositories` request (and nothing else, the commit
fetches being a stub), and not a single `RateLimiter.wait` event: the limiter
is constructed (src/3/main.py:96) but `wait()` is invoked nowhere, so requests
are issued without a preceding `wait()`. -/
theorem get_repositories_trace_has_no_wait (top_repos_data : List RepoData) :
    get_repositories_events top_repos_data = [ApiEvent.request "search/repositories"]
    ∧ (get_repositories_events top_repos_data).count ApiEvent.wait = 0 := by
  have hflat : (top_repos_data.map (fun _ => get_repository_commits_events)).flatten
      = ([] : List ApiEvent) := by
    induction top_repos_data with
    | nil => rfl
    | cons x xs ih => simp [get_repository_commits_events, ih]
  have htrace : get_repositories_events top_repos_data
      = [ApiEvent.request "search/repositories"] := by
    unfold get_repositories_events
    rw [hflat]
    rfl
  refine ⟨htrace, ?_⟩
  rw [htrace]
  decide

/-! Helper lemmas about `chunked`. -/

theorem chunked_nil {α : Type} (k : Nat) : chunked ([] : List α) k = [] := by
  unfold chunked
  by_cases hk : k = 0
  · simp [hk]
  · have h0 : (k - 1) / k = 0 := Nat.div_eq_of_lt (by omega)
    simp [hk, h0]

theorem chunked_cons_eq {α : Type} (xs : List α) (k : Nat) (hk : k ≠ 0) (hxs : xs ≠ []) :
    chunked xs k = xs.take k :: chunked (xs.drop k) k := by
  have hn : 1 ≤ xs.length := List.length_pos.mpr hxs
  have hkpos : 0 < k := Nat.pos_of_ne_zero hk
  have hcount : (xs.length + k - 1) / k = (xs.length - 1) / k + 1 := by
    have he : xs.length + k - 1 = (xs.length - 1) + k := by omega
    rw [he, Nat.add_div_right _ hkpos]
  have hcount2 : ((xs.drop k).length + k - 1) / k = (xs.length - 1) / k := by
    rw [List.length_drop]
    rcases le_or_lt k xs.length with h | h
    · have he : xs.length - k + k - 1 = xs.length - 1 := by omega
      rw [he]
    · have h1 : xs.length - k = 0 := by omega
      rw [h1]
      have h2 : (0 + k - 1) / k = 0 := Nat.div_eq_of_lt (by omega)
      have h3 : (xs.length - 1) / k = 0 := Nat.div_eq_of_lt (by omega)
      rw [h2, h3]
  unfold chunked
  rw [if_neg hk, if_neg hk, hcount, hcount2, List.range_succ_eq_map]
  simp only [List.map_cons, List.map_map, Nat.zero_mul, List.drop_zero]
  refine congrArg (List.cons (xs.take k)) ?_
  refine List.map_congr_left ?_
  intro j hj
  simp only [Function.comp]
  rw [List.drop_drop, Nat.succ_mul, Nat.add_comm (j * k) k]

theorem chunked_flatten_aux {α : Type} (k : Nat) (hk : k ≠ 0) :
    ∀ (n : Nat) (xs : List α), xs.length ≤ n → (chunked xs k).flatten = xs := by
  intro n
  induction n with
  | zero =>
    intro xs h
    have hx : xs = [] := List.length_eq_zero.mp (Nat.le_zero.mp h)
    subst hx
    simp [chunked_nil]
  | succ n ih =>
    intro xs h
    rcases eq_or_ne xs [] with hx | hx
    · subst hx
      simp [chunked_nil]
    · have hlen : (xs.drop k).length ≤ n := by
        simp only [List.length_drop]
        have h1 := List.length_pos.mpr hx
        have h2 := Nat.pos_of_ne_zero hk
        omega
      rw [chunked_cons_eq xs k hk hx, List.flatten_cons, ih (xs.drop k) hlen]
      exact List.take_append_drop k xs

theorem chunked_flatten {α : Type} (xs : List α) (k : Nat) (hk : k ≠ 0) :
    (chunked xs k).flatten = xs :=
  chunked_flatten_aux k hk xs.length xs le_rfl

theorem chunked_mem_length_le {α : Type} (xs : List α) (k : Nat) (c : List α)
    (hc : c ∈ chunked xs k) : c.length ≤ k := by
  unfold chunked at hc
  by_cases hkz : k = 0
  · simp [hkz] at hc
  · rw [if_neg hkz] at hc
    obtain ⟨j, hj, rfl⟩ := List.mem_map.mp hc
    exact List.length_take_le _ _

theorem chunked_sizes_250 {α : Type} (xs : List α) (h : xs.length = 250) :
    (chunked xs 100).map List.length = [100, 100, 50] := by
  unfold chunked
  rw [if_neg (by norm_num), h]
  have hc : (250 + 100 - 1) / 100 = 3 := by norm_num
  rw [hc, show List.range 3 = [0, 1, 2] from rfl]
  simp [List.length_take, List.length_drop, h]

/-- Helper: repositories with no author entries contribute no commit rows. -/
theorem commits_rows_eq_nil (today : Nat) (l : List Repository)
    (h : ∀ r ∈ l, r.authors_commits_num_today = []) : commits_rows today l = [] := by
  unfold commits_rows
  rw [List.flatten_eq_nil_iff]
  intro x hx
  obtain ⟨r, hr, rfl⟩ := List.mem_map.mp hx
  rw [h r hr]
  rfl

/-- Helper: with exactly one author entry per repository, the commit-row
family has one row per repository. -/
theorem commits_rows_replicate_one (today n : Nat) :
    (commits_rows today (List.replicate n one_author_repo)).length = n := by
  induction n with
  | zero => rfl
  | succ n ih =>
    rw [List.replicate_succ]
    unfold commits_rows at ih ⊢
    rw [List.map_cons, List.flatten_cons, List.length_append, ih]
    have h1 : (List.map (fun ac => (today, one_author_repo.name, ac.author, ac.commits_num))
        one_author_repo.authors_commits_num_today).length = 1 := rfl
    rw [h1, Nat.add_comm]

/-- Counterexample to C7 as stated: a run of 250 repositories, all with empty
`authors_commits_num_today`, produces 0 author-commit rows, so the commits
table receives 0 insert operations rather than the claimed 3 per table. -/
theorem save_data_250_commit_ops_cex :
    (List.replicate 250 empty_authors_repo).length = 250
    ∧ ¬ ((save_data_to_clickhouse 0 0 (List.replicate 250 empty_authors_repo) 100).countP
          is_commits_op = 3) := by
  constructor
  · exact List.length_replicate 250 empty_authors_repo
  · have hcr : commits_rows 0 (List.replicate 250 empty_authors_repo) = [] := by
      refine commits_rows_eq_nil 0 _ (fun r hr => ?_)
      rw [List.eq_of_mem_replicate hr]
      rfl
    have hch : chunked (commits_rows 0 (List.replicate 250 empty_authors_repo)) 100 = [] := by
      rw [hcr, chunked_nil]
    unfold save_data_to_clickhouse
    rw [hch]
    simp only [List.map_nil, List.append_nil, List.countP_append]
    have h1 : ((chunked (repos_rows 0 (List.replicate 250 empty_authors_repo)) 100).map
        InsertOp.repos).countP is_commits_op = 0 := by
      rw [List.countP_eq_zero]
      intro a ha
      obtain ⟨c, _, rfl⟩ := List.mem_map.mp ha
      simp [is_commits_op]
    have h2 : ((chunked (positions_rows 0 (List.replicate 250 empty_authors_repo)) 100).map
        InsertOp.positions).countP is_commits_op = 0 := by
      rw [List.countP_eq_zero]
      intro a ha
      obtain ⟨c, _, rfl⟩ := List.mem_map.mp ha
      simp [is_commits_op]
    rw [h1, h2]
    omega

/-- Claim C7 (amended): the writer splits each of the three row families into
consecutive chunks of at most `batch_size` rows whose concatenation restores
the rows, and issues the chunk inserts in table order metadata, ranks, commit
counts; for 250 repositories with `batch_size = 100` the metadata and rank
tables each get 3 inserts of 100, 100 and 50 rows, and the commits table gets
3 such inserts exactly when its row family also has 250 rows (one insert per
chunk of the author rows, however many there are). -/
theorem save_data_chunking (now today : Nat) (repositories : List Repository)
    (batch_size : Nat) (hb : batch_size ≠ 0) :
    (∀ op ∈ save_data_to_clickhouse now today repositories batch_size,
        insert_op_size op ≤ batch_size)
    ∧ ((chunked (repos_rows now repositories) batch_size).flatten = repos_rows now repositories
        ∧ (chunked (positions_rows today repositories) batch_size).flatten
            = positions_rows today repositories
        ∧ (chunked (commits_rows today repositories) batch_size).flatten
            = commits_rows today repositories)
    ∧ (save_data_to_clickhouse now today repositories batch_size
        = (chunked (repos_rows now repositories) batch_size).map InsertOp.repos
          ++ (chunked (positions_rows today repositories) batch_size).map InsertOp.positions
          ++ (chunked (commits_rows today repositories) batch_size).map InsertOp.commits)
    ∧ (repositories.length = 250 → batch_size = 100 →
        ((chunked (repos_rows now repositories) batch_size).map List.length = [100, 100, 50]
         ∧ (chunked (positions_rows today repositories) batch_size).map List.length
             = [100, 100, 50]
         ∧ ((commits_rows today repositories).length = 250 →
             (chunked (commits_rows today repositories) batch_size).map List.length
               = [100, 100, 50]))) := by
  refine ⟨?_, ⟨chunked_flatten _ _ hb, chunked_flatten _ _ hb, chunked_flatten _ _ hb⟩,
    rfl, ?_⟩
  · intro op hop
    unfold save_data_to_clickhouse at hop
    rcases List.mem_append.mp hop with h12 | h3
    · rcases List.mem_append.mp h12 with h1 | h2
      · obtain ⟨c, hc, rfl⟩ := List.mem_map.mp h1
        simpa [insert_op_size] using chunked_mem_length_le _ _ c hc
      · obtain ⟨c, hc, rfl⟩ := List.mem_map.mp h2
        simpa [insert_op_size] using chunked_mem_length_le _ _ c hc
    · obtain ⟨c, hc, rfl⟩ := List.mem_map.mp h3
      simpa [insert_op_size] using chunked_mem_length_le _ _ c hc
  · intro h250 hb100
    subst hb100
    have hr : (repos_rows now repositories).length = 250 := by simp [repos_rows, h250]
    have hp : (positions_rows today repositories).length = 250 := by
      simp [positions_rows, h250]
    exact ⟨chunked_sizes_250 _ hr, chunked_sizes_250 _ hp,
      fun hc => chunked_sizes_250 _ hc⟩

/-- Witness for C7 (amended) on a concrete 250-repository run with one author
row per repository: all three tables get chunks of 100, 100, 50 rows. -/
theorem save_data_chunking_witness :
    (chunked (repos_rows 0 repos_250) 100).map List.length = [100, 100, 50]
    ∧ (chunked (positions_rows 0 repos_250) 100).map List.length = [100, 100, 50]
    ∧ (chunked (commits_rows 0 repos_250) 100).map List.length = [100, 100, 50] := by
  have h := save_data_chunking 0 0 repos_250 100 (by decide)
  have h250 : repos_250.length = 250 := by
    rw [repos_250]
    exact List.length_replicate 250 one_author_repo
  have hcr : (commits_rows 0 repos_250).length = 250 := by
    rw [repos_250]
    exact commits_rows_replicate_one 0 250
  exact ⟨(h.2.2.2 h250 rfl).1, (h.2.2.2 h250 rfl).2.1, (h.2.2.2 h250 rfl).2.2 hcr⟩

/-- Counterexample to C4 as stated: at configured rate -1 (non-positive, and
parsed fine from `GITHUB_RPS=-1`), construction does not fall back to the
default rate 1.0 — it stores rate -1 with the negative minimum interval -1 —
and at configured rate 0 construction raises `ZeroDivisionError` rather than
falling back. -/
theorem RateLimiter_init_no_fallback_cex :
    RateLimiter.init (configured_rps (some (some (-1))))
        = Except.ok { rate := -1, min_interval := -1, last_call := 0 }
    ∧ RateLimiter.init (configured_rps (some (some (-1)))) ≠ RateLimiter.init 1
    ∧ ({ rate := -1, min_interval := -1, last_call := 0 } : RateLimiter).min_interval < 0
    ∧ RateLimiter.init (configured_rps (some (some 0)))
        = Except.error PyError.zeroDivisionError := by
  have hm1 : configured_rps (some (some (-1))) = -1 := rfl
  have h0 : configured_rps (some (some 0)) = 0 := rfl
  refine ⟨?_, ?_, by norm_num, ?_⟩
  · rw [hm1, RateLimiter.init, if_neg (by norm_num : ¬ (-1 : ℚ) = 0)]
    norm_num
  · rw [hm1, RateLimiter.init, RateLimiter.init,
      if_neg (by norm_num : ¬ (-1 : ℚ) = 0), if_neg (one_ne_zero)]
    intro hcontra
    simp only [Except.ok.injEq, RateLimiter.mk.injEq] at hcontra
    exact absurd hcontra.1 (by norm_num)
  · rw [h0, RateLimiter.init, if_pos rfl]

/-- Claim C4 (amended): `RateLimiter.__init__` computes `_min_interval` as
`1.0 / rate` unconditionally, with no guard for non-positive rates: every
nonzero configured rate is stored as-is (minimum interval `1/rate`, negative
when the rate is negative), rate 0 raises `ZeroDivisionError`, and the default
1.0 applies only at the `GITHUB_RPS` parsing stage, when the variable is unset
or unparsable. -/
theorem RateLimiter_init_unguarded (r : ℚ) (h : r ≠ 0) :
    RateLimiter.init r = Except.ok { rate := r, min_interval := 1 / r, last_call := 0 }
    ∧ (∀ L, RateLimiter.init r = Except.ok L → r < 0 → L.min_interval < 0)
    ∧ RateLimiter.init 0 = Except.error PyError.zeroDivisionError
    ∧ configured_rps none = 1
    ∧ configured_rps (some none) = 1
    ∧ configured_rps (some (some r)) = r := by
  have hinit : RateLimiter.init r
      = Except.ok { rate := r, min_interval := 1 / r, last_call := 0 } := by
    rw [RateLimiter.init, if_neg h]
  refine ⟨hinit, ?_, ?_, rfl, rfl, rfl⟩
  · intro L hL hneg
    rw [hinit] at hL
    injection hL with hL
    rw [← hL]
    exact one_div_neg.mpr hneg
  · rw [RateLimiter.init, if_pos rfl]

/-- Witness for C4 (amended) at the concrete nonzero rate -2. -/
theorem RateLimiter_init_unguarded_witness :
    RateLimiter.init (-2) = Except.ok { rate := -2, min_interval := 1 / (-2), last_call := 0 }
    ∧ ({ rate := -2, min_interval := 1 / (-2), last_call := 0 } : RateLimiter).min_interval < 0 := by
  have h := RateLimiter_init_unguarded (-2) (by norm_num)
  exact ⟨h.1, h.2.1 _ h.1 (by norm_num)⟩

/-- Helper: one valid `wait` execution completes no earlier than the previous
recorded `_last_call` plus the minimum interval. -/
theorem valid_wait_exec_gap (m last : ℚ) (e : WaitExec)
    (h : valid_wait_exec m last e = true) : last + m ≤ e.fin := by
  unfold valid_wait_exec wait_time at h
  by_cases hw : 0 < m - (e.now - last)
  · rw [if_pos hw] at h
    simp only [Bool.and_eq_true, decide_eq_true_eq] at h
    linarith [h.2]
  · rw [if_neg hw] at h
    simp only [Bool.and_eq_true, decide_eq_true_eq] at h
    push_neg at hw
    linarith [h.1, h.2]

/-- Helper: along a valid serialised trace the recorded completion times,
prefixed with the initial `_last_call`, are spaced by at least the minimum
interval. -/
theorem valid_wait_trace_chain (m : ℚ) (es : List WaitExec) :
    ∀ last : ℚ, valid_wait_trace m last es = true →
      List.Chain' (fun a b => a + m ≤ b) (last :: es.map WaitExec.fin) := by
  induction es with
  | nil =>
    intro last _
    simp
  | cons e tl ih =>
    intro last h
    unfold valid_wait_trace at h
    simp only [Bool.and_eq_true] at h
    obtain ⟨h1, h2⟩ := h
    simp only [List.map_cons]
    rw [List.chain'_cons]
    exact ⟨valid_wait_exec_gap m last e h1, ih e.fin h2⟩

/-- Claim C10: for every rate `r > 0` and the limiter the code constructs for
that rate, any serialised sequence of `wait()` executions — the asyncio lock
serialises the check-and-update and the monotonic clock never under-counts
elapsed time — has successive completions no closer together than `1/r`. -/
theorem rate_limiter_wait_spacing (r : ℚ) (hr : 0 < r) (L : RateLimiter)
    (hL : RateLimiter.init r = Except.ok L) (last0 : ℚ) (es : List WaitExec)
    (hv : valid_wait_trace L.min_interval last0 es = true) :
    List.Chain' (fun a b => a + 1 / r ≤ b) (es.map WaitExec.fin) := by
  have hr0 : r ≠ 0 := ne_of_gt hr
  have hLm : L.min_interval = 1 / r := by
    rw [RateLimiter.init, if_neg hr0] at hL
    injection hL with hL
    rw [← hL]
  rw [hLm] at hv
  exact (valid_wait_trace_chain (1 / r) es last0 hv).tail

/-- Witness for C10: rate 2 and two wait executions completing at times 1/2
and 1, each valid against the clock model, spaced by exactly 1/2. -/
theorem rate_limiter_wait_spacing_witness :
    List.Chain' (fun a b => a + 1 / (2 : ℚ) ≤ b)
      (([⟨0, 1 / 2⟩, ⟨1 / 2, 1⟩] : List WaitExec).map WaitExec.fin) := by
  refine rate_limiter_wait_spacing 2 (by norm_num)
    { rate := 2, min_interval := 1 / 2, last_call := 0 } ?_ 0
    [⟨0, 1 / 2⟩, ⟨1 / 2, 1⟩] ?_
  · rw [RateLimiter.init, if_neg (by norm_num : ¬ (2 : ℚ) = 0)]
  · simp only [valid_wait_trace, valid_wait_exec, wait_time]
    rw [if_pos (by norm_num : (0 : ℚ) < 1 / 2 - (0 - 0)),
      if_pos (by norm_num : (0 : ℚ) < 1 / 2 - (1 / 2 - 1 / 2))]
    simp only [Bool.and_eq_true, decide_eq_true_eq]
    norm_num
